import Mathlib

/-!
Verification development for the `sqdu` SQLite disk-usage inspector.

The Rust sources (`src/app.rs`, `src/main.rs`) are shallowly embedded here:

* Rust `String`/`&str` values are modelled as `List Char` (a Rust string is
  a sequence of Unicode scalar values).  Rust's byte-based string APIs
  (`str::find`, `str::rfind`, range slicing `s[a..b]`) are modelled by
  functions that compute UTF-8 byte offsets via `Char.utf8Size`; a slice
  that would panic in Rust (out of range, start past end, or not on a
  character boundary) is modelled as `none`.
* `rusqlite` query results are modelled by a `Db` structure holding the
  `sqlite_master` catalog rows, the `dbstat` virtual-table rows and the
  PRAGMA introspection results; each SQL query issued by the code is
  translated into a pure function over that snapshot.
* The `ratatui` `ListState` is modelled by its `selected : Option Nat`
  payload, and the key-event loop of `run_app` by a `step` function.
-/

/-- A Rust string: a list of Unicode scalar values. -/
abbrev Str := List Char

/-- Total UTF-8 byte length of a string, as Rust `str::len`. -/
def utf8Len (s : Str) : Nat := (s.map Char.utf8Size).sum

/-- Byte offset of the first occurrence of character `c`, as Rust
`str::find(char)`. -/
def findCharPos (c : Char) : Str → Option Nat
  | [] => none
  | x :: xs =>
    if x = c then some 0
    else (findCharPos c xs).map (fun n => x.utf8Size + n)

/-- Does `pat` occur as a prefix of `s` (character-wise)? -/
def isStartOf : Str → Str → Bool
  | [], _ => true
  | _ :: _, [] => false
  | p :: ps, x :: xs => p == x && isStartOf ps xs

/-- Byte offset of the first occurrence of the substring `pat`, as Rust
`str::find(&str)`.  An ASCII-only `pat` can only match at character
boundaries of the UTF-8 encoding, so a character-level scan returning the
byte offset of the match is faithful. -/
def findSubPos (pat : Str) : Str → Option Nat
  | [] => if pat.isEmpty then some 0 else none
  | x :: xs =>
    if isStartOf pat (x :: xs) then some 0
    else (findSubPos pat xs).map (fun n => x.utf8Size + n)

/-- Rust `str::contains(&str)`. -/
def containsSub (pat s : Str) : Bool := (findSubPos pat s).isSome

/-- Byte offset of the last occurrence of character `c`, as Rust
`str::rfind(char)`. -/
def rfindCharPos (c : Char) : Str → Option Nat
  | [] => none
  | x :: xs =>
    match rfindCharPos c xs with
    | some n => some (x.utf8Size + n)
    | none => if x = c then some 0 else none

/-- Drop the first `a` bytes of `s`; `none` models the panic of Rust
`&s[a..]` when `a` is out of range or not on a character boundary. -/
def byteDrop : Str → Nat → Option Str
  | s, 0 => some s
  | [], _ + 1 => none
  | x :: xs, a + 1 =>
    if x.utf8Size ≤ a + 1 then byteDrop xs (a + 1 - x.utf8Size) else none

/-- Take the first `a` bytes of `s`; `none` models the panic of Rust
`&s[..a]` when `a` is out of range or not on a character boundary. -/
def byteTake : Str → Nat → Option Str
  | _, 0 => some []
  | [], _ + 1 => none
  | x :: xs, a + 1 =>
    if x.utf8Size ≤ a + 1 then (byteTake xs (a + 1 - x.utf8Size)).map (fun t => x :: t)
    else none

/-- Byte-range slice `s[a..b]` of Rust; `none` models the slicing panic
(start past end, end past the last byte, or either bound off a character
boundary). -/
def byteSlice (s : Str) (a b : Nat) : Option Str :=
  if a ≤ b then (byteDrop s a).bind (fun t => byteTake t (b - a)) else none

/-- ASCII-range uppercasing of one character (used both by the model of
SQLite `LIKE` and by the claim-level parser description). -/
def asciiToUpper (c : Char) : Char :=
  if 'a' ≤ c ∧ c ≤ 'z' then Char.ofNat (c.toNat - 32) else c

/-- ASCII-range lowercasing of one character (SQLite `LIKE` is
case-insensitive exactly on the ASCII range). -/
def asciiToLower (c : Char) : Char :=
  if 'A' ≤ c ∧ c ≤ 'Z' then Char.ofNat (c.toNat + 32) else c

/-- Models Rust `char::to_uppercase` (the Unicode uppercase mapping, which
may expand one character to several).  It is specified exactly on the ASCII
range and on U+0131 LATIN SMALL LETTER DOTLESS I (which uppercases to `I`);
on every other character it is the identity, which is sufficient for all
inputs considered in this development. -/
def rustCharToUpper (c : Char) : List Char :=
  if 'a' ≤ c ∧ c ≤ 'z' then [Char.ofNat (c.toNat - 32)]
  else if c = '\u0131' then ['I']
  else [c]

/-- Models Rust `str::to_uppercase`. -/
def rustToUppercase (s : Str) : Str := s.flatMap rustCharToUpper

/-- Unicode `White_Space` test, as used by Rust `str::trim`. -/
def isRustWhitespace (c : Char) : Bool :=
  ('\x09' ≤ c && c ≤ '\x0d') || c = ' ' || c = '\x85' || c = '\xa0' ||
  c = '\u1680' || ('\u2000' ≤ c && c ≤ '\u200a') ||
  c = '\u2028' || c = '\u2029' || c = '\u202f' || c = '\u205f' || c = '\u3000'

/-- Models Rust `str::trim`. -/
def rustTrim (s : Str) : Str :=
  ((s.dropWhile isRustWhitespace).reverse.dropWhile isRustWhitespace).reverse

/-- The pattern `" WHERE "` searched for by the parser. -/
def strWHERE : Str := " WHERE ".toList

/-- The pattern `"UNIQUE"` searched for by the parser. -/
def strUNIQUE : Str := "UNIQUE".toList

/-- The sentinel column list used for indexes with no statement text. -/
def strAuto : Str := "(auto)".toList

/-- The placeholder DDL text of `analyze_table_details`. -/
def strNoDdl : Str := "-- DDL not available".toList

/-- The index-definition parsing of `analyze_indexes` (src/app.rs lines
240-268), byte-for-byte: uniqueness via `to_uppercase().contains("UNIQUE")`;
the first `(` via `find('(')`; the search end as the byte offset of
`" WHERE "` in the *uppercased* text (clamped to the original length) or the
end of the string; the last `)` via `rfind` on the slice `sql_str[start..end]`;
the column text as `sql_str[start+1..start+close]`; the partial clause as
`sql_str[where_start+7..].trim()`.  The result is `none` exactly when the
Rust code panics on an out-of-range or off-boundary slice. -/
def parse_index_sql (sql_str : Str) : Option (Bool × Str × Option Str) :=
  let upper := rustToUppercase sql_str
  let is_unique := containsSub strUNIQUE upper
  let wherePos := findSubPos strWHERE upper
  let endPos :=
    match wherePos with
    | some w => min w (utf8Len sql_str)
    | none => utf8Len sql_str
  let columnsOpt : Option Str :=
    match findCharPos '(' sql_str with
    | some start =>
      match byteSlice sql_str start endPos with
      | none => none
      | some seg =>
        match rfindCharPos ')' seg with
        | some close => byteSlice sql_str (start + 1) (start + close)
        | none => some []
    | none => some []
  match columnsOpt with
  | none => none
  | some columns =>
    match wherePos with
    | some w =>
      match byteDrop sql_str (w + 7) with
      | none => none
      | some rest => some (is_unique, columns, some (rustTrim rest))
    | none => some (is_unique, columns, none)

example : parse_index_sql ("CREATE UNIQUE INDEX ix ON t (a, b) WHERE a IS NOT NULL".toList) =
    some (true, "a, b".toList, some ("a IS NOT NULL".toList)) := by decide

/-- Character-level index of the first occurrence of `c`. -/
def charFindIdx (c : Char) : Str → Option Nat
  | [] => none
  | x :: xs =>
    if x = c then some 0 else (charFindIdx c xs).map (fun n => n + 1)

/-- Character-level index of the first occurrence of the substring `pat`. -/
def charFindSub (pat : Str) : Str → Option Nat
  | [] => if pat.isEmpty then some 0 else none
  | x :: xs =>
    if isStartOf pat (x :: xs) then some 0
    else (charFindSub pat xs).map (fun n => n + 1)

/-- Character-level index of the last occurrence of `c`. -/
def charRfindIdx (c : Char) : Str → Option Nat
  | [] => none
  | x :: xs =>
    match charRfindIdx c xs with
    | some n => some (n + 1)
    | none => if x = c then some 0 else none

/-- The index-definition parser as the specification describes it, at the
level of character positions in the statement text: uniqueness is the
presence of a case-insensitive `UNIQUE` anywhere; the column list is the
text strictly between the first `(` and the last `)` occurring before the
(first, case-insensitive) `" WHERE "` token when one exists, else before the
end of the string, and empty when there is no `(` (or no such `)`); the
partial clause is the trimmed text following the `" WHERE "` token.
Case-insensitive search is formalised as search for the (uppercase) pattern
in the ASCII-uppercased text. -/
def spec_parse_index (s : Str) : Bool × Str × Option Str :=
  let upper := s.map asciiToUpper
  let is_unique := (charFindSub strUNIQUE upper).isSome
  let wherePos := charFindSub strWHERE upper
  let e :=
    match wherePos with
    | some w => w
    | none => s.length
  let columns :=
    match charFindIdx '(' s with
    | none => []
    | some p =>
      let region := (s.drop (p + 1)).take (e - (p + 1))
      match charRfindIdx ')' region with
      | some j => region.take j
      | none => []
  match wherePos with
  | some w => (is_unique, columns, some (rustTrim (s.drop (w + 7))))
  | none => (is_unique, columns, none)

/-- A statement text containing the two-byte character U+0131: the byte
offset of `" WHERE "` in the uppercased text (where U+0131 has become the
one-byte `I`) differs from its byte offset in the original text. -/
def sqlDotlessI : Str := "CREATE INDEX ı ON t(a) WHERE x".toList

/-- An index name containing `" WHERE "` before the `(`: the parse slices
with start greater than end, which panics in Rust. -/
def sqlWhereInName : Str := "CREATE INDEX \x22a WHERE \x22 ON t(c)".toList

example : parse_index_sql sqlDotlessI = some (false, [], some ("x".toList)) := by decide

example : spec_parse_index sqlDotlessI = (false, "a".toList, some ("x".toList)) := by decide

example : parse_index_sql sqlWhereInName = none := by decide

/-- Per-table summary produced by `analyze_database` (struct `TableInfo`).
The Rust `u64` fields are modelled as `Nat`: they hold page-byte sums and
row counts, far below `2^64`, so overflow never matters here. -/
structure TableInfo where
  name : Str
  size_bytes : Nat
  row_count : Nat
  index_count : Nat
  index_size_bytes : Nat
deriving DecidableEq

/-- Per-index summary produced by `analyze_indexes` (struct `IndexInfo`). -/
structure IndexInfo where
  name : Str
  size_bytes : Nat
  is_unique : Bool
  columns : Str
  partial_clause : Option Str
deriving DecidableEq

/-- One `PRAGMA table_info` row (struct `ColumnInfo`). -/
structure ColumnInfo where
  name : Str
  col_type : Str
  not_null : Bool
  default_value : Option Str
  is_pk : Bool
deriving DecidableEq

/-- One `PRAGMA foreign_key_list` row (struct `ForeignKeyInfo`). -/
structure ForeignKeyInfo where
  from_col : Str
  to_table : Str
  to_col : Str
  on_update : Str
  on_delete : Str
deriving DecidableEq

/-- Result of `analyze_table_details` (struct `TableDetails`). -/
structure TableDetails where
  ddl : Str
  columns : List ColumnInfo
  foreign_keys : List ForeignKeyInfo
  triggers : List Str
deriving DecidableEq

/-- One row of `sqlite_master`, the schema catalog. -/
structure CatalogEntry where
  objType : Str
  name : Str
  tbl_name : Str
  sql : Option Str
deriving DecidableEq

/-- A snapshot of the opened database, holding the results the storage
engine returns to each query the code issues: `master` is the catalog in
its enumeration order; `dbstat` is the page-statistics virtual table, one
row `(object name, pgsize)` per page; `rowCountQuery` records the value of
`SELECT COUNT(*) FROM "t"` for each table for which that query succeeds (a
missing entry models a failing count query, absorbed by `unwrap_or(0)`);
`tableInfoRows` and `foreignKeyRows` record the `PRAGMA table_info` /
`PRAGMA foreign_key_list` rows per object name (a missing entry is the
empty row set the engine returns for an unknown name). -/
structure Db where
  master : List CatalogEntry
  dbstat : List (Str × Nat)
  rowCountQuery : List (Str × Nat)
  tableInfoRows : List (Str × List ColumnInfo)
  foreignKeyRows : List (Str × List ForeignKeyInfo)
deriving DecidableEq

/-- First association in `l` for key `k`. -/
def lookupStr {α : Type} (l : List (Str × α)) (k : Str) : Option α :=
  (l.find? (fun p => p.1 == k)).map (fun p => p.2)

/-- The catalog object kinds used by the queries. -/
def tyTable : Str := "table".toList

/-- Catalog kind of index objects. -/
def tyIndex : Str := "index".toList

/-- Catalog kind of trigger objects. -/
def tyTrigger : Str := "trigger".toList

/-- Models the SQL predicate `name LIKE 'sqlite_%'`: SQLite `LIKE` is
case-insensitive on the ASCII range, `_` matches exactly one character and
`%` any (possibly empty) suffix, so the pattern holds iff the name is at
least 7 characters long and its first 6 characters case-fold to
`sqlite`. -/
def likeSqlitePat (name : Str) : Bool :=
  decide (7 ≤ name.length) && ((name.take 6).map asciiToLower == "sqlite".toList)

/-- Models `SELECT SUM(pgsize) FROM dbstat WHERE name = ?1` read as `u64`
and absorbed by `unwrap_or(0)` (an empty SUM is NULL, which fails the read
and yields 0 — the same value the COALESCE variant produces). -/
def dbstatSumFor (db : Db) (n : Str) : Nat :=
  ((db.dbstat.filter (fun p => p.1 == n)).map (fun p => p.2)).sum

/-- Stable descending insertion: `x` is placed before the first element
whose key is not greater, so it stays after earlier elements with an equal
key. -/
def insertDescBy {α : Type} (key : α → Nat) (x : α) : List α → List α
  | [] => [x]
  | y :: ys => if key x < key y then y :: insertDescBy key x ys else x :: y :: ys

/-- Stable descending sort by `key`: extensionally the Rust stable
`slice::sort_by(|a, b| key(b).cmp(&key(a)))`. -/
def sortDescBy {α : Type} (key : α → Nat) : List α → List α
  | [] => []
  | x :: xs => insertDescBy key x (sortDescBy key xs)

/-- Lexicographic comparison of two strings by code point, which equals
the byte-wise (binary collation) comparison of their UTF-8 encodings. -/
def strLt : Str → Str → Bool
  | [], [] => false
  | [], _ :: _ => true
  | _ :: _, [] => false
  | x :: xs, y :: ys => if x < y then true else if y < x then false else strLt xs ys

/-- Ascending insertion for `ORDER BY name` (stable; table names are unique
in the catalog, so any deterministic order agrees with the engine). -/
def insertAscName (x : Str) : List Str → List Str
  | [] => [x]
  | y :: ys => if strLt y x then y :: insertAscName x ys else x :: y :: ys

/-- Models `ORDER BY name` under the default binary collation. -/
def sortAscNames : List Str → List Str
  | [] => []
  | x :: xs => insertAscName x (sortAscNames xs)

/-- The catalog enumeration of `analyze_database`: `SELECT name FROM
sqlite_master WHERE type='table' AND name NOT LIKE 'sqlite_%' ORDER BY
name`. -/
def table_names (db : Db) : List Str :=
  sortAscNames ((db.master.filter
    (fun e => e.objType == tyTable && !likeSqlitePat e.name)).map (fun e => e.name))

/-- One iteration of the per-table loop of `analyze_database`.  Note the
index-count query filters `name NOT LIKE 'sqlite_%'` while the index-size
query's subselect (`... WHERE name IN (SELECT name FROM sqlite_master WHERE
type='index' AND tbl_name=?1)`) has no such filter, exactly as in the
source. -/
def mkTableInfo (db : Db) (table_name : Str) : TableInfo :=
  { name := table_name
  , size_bytes := dbstatSumFor db table_name
  , row_count := (lookupStr db.rowCountQuery table_name).getD 0
  , index_count := (db.master.filter (fun e =>
      e.objType == tyIndex && e.tbl_name == table_name && !likeSqlitePat e.name)).length
  , index_size_bytes := ((db.dbstat.filter (fun p =>
      (db.master.filter (fun e =>
        e.objType == tyIndex && e.tbl_name == table_name)).any
          (fun e => e.name == p.1))).map (fun p => p.2)).sum }

/-- The per-table summaries of `analyze_database` before the final sort. -/
def analyze_database_pre (db : Db) : List TableInfo :=
  (table_names db).map (mkTableInfo db)

/-- `analyze_database` over an opened connection (src/app.rs lines
149-213). -/
def analyze_database (db : Db) : List TableInfo :=
  sortDescBy (fun t => t.size_bytes) (analyze_database_pre db)

/-- The catalog enumeration of `analyze_indexes`: name and statement text
of the non-internal indexes of one table, in catalog order. -/
def index_rows (db : Db) (table_name : Str) : List (Str × Option Str) :=
  (db.master.filter (fun e =>
    e.objType == tyIndex && e.tbl_name == table_name && !likeSqlitePat e.name)).map
    (fun e => (e.name, e.sql))

/-- One iteration of the per-index loop of `analyze_indexes`; `none` models
a panic escaping from the index-definition parsing. -/
def mkIndexInfo (db : Db) (row : Str × Option Str) : Option IndexInfo :=
  match row.2 with
  | some sql_str =>
    match parse_index_sql sql_str with
    | none => none
    | some (u, cols, pc) =>
      some { name := row.1, size_bytes := dbstatSumFor db row.1
           , is_unique := u, columns := cols, partial_clause := pc }
  | none =>
    some { name := row.1, size_bytes := dbstatSumFor db row.1
         , is_unique := false, columns := strAuto, partial_clause := none }

/-- Run `f` over a list, collecting the results, aborting at the first
`none` (the Rust loop body runs left to right and a panic aborts it). -/
def mapOption {α β : Type} (f : α → Option β) : List α → Option (List β)
  | [] => some []
  | x :: xs =>
    match f x, mapOption f xs with
    | some y, some ys => some (y :: ys)
    | _, _ => none

/-- The index summaries of `analyze_indexes` before the final sort (`none`
models a panic in the loop, which aborts the whole call). -/
def analyze_indexes_pre (db : Db) (table_name : Str) : Option (List IndexInfo) :=
  mapOption (mkIndexInfo db) (index_rows db table_name)

/-- `analyze_indexes` over an opened connection (src/app.rs lines
215-288). -/
def analyze_indexes (db : Db) (table_name : Str) : Option (List IndexInfo) :=
  (analyze_indexes_pre db table_name).map (sortDescBy (fun i => i.size_bytes))

/-- Scan of a double-quoted SQL identifier body by the SQLite tokenizer:
`""` stands for one literal `"`, the token ends at a lone `"`, and the rest
of the text is returned; `none` when the quote is never closed. -/
def scanQuotedIdent : Str → Option (Str × Str)
  | [] => none
  | '\x22' :: '\x22' :: rest =>
    (scanQuotedIdent rest).map (fun r => ('\x22' :: r.1, r.2))
  | '\x22' :: rest => some ([], rest)
  | c :: rest => (scanQuotedIdent rest).map (fun r => (c :: r.1, r.2))

/-- The object a statement `PRAGMA _("{table_name}")` built by naive
interpolation actually refers to: `some target` when the interpolated text
parses (the quoted body, with `""` read back as `"`, followed by exactly
the closing parenthesis), `none` when it is a syntax error, in which case
`prepare` fails and the `?` operator returns the error. -/
def pragmaTarget (table_name : Str) : Option Str :=
  match scanQuotedIdent (table_name ++ ('\x22' :: [')'])) with
  | some (content, [')']) => some content
  | _ => none

/-- `analyze_table_details` over an opened connection (src/app.rs lines
290-343).  The DDL, foreign-key and trigger queries are parameterized and
cannot fail structurally; the two PRAGMA statements interpolate the table
name into identifier position, so their `prepare` fails exactly when the
interpolated text does not parse. -/
def analyze_table_details (db : Db) (table_name : Str) : Except Unit TableDetails :=
  let ddl :=
    match (db.master.find? (fun e =>
      e.objType == tyTable && e.name == table_name)).bind (fun e => e.sql) with
    | some s => s
    | none => strNoDdl
  match pragmaTarget table_name with
  | none => Except.error ()
  | some target =>
    Except.ok
      { ddl := ddl
      , columns := (lookupStr db.tableInfoRows target).getD []
      , foreign_keys := (lookupStr db.foreignKeyRows target).getD []
      , triggers := (db.master.filter (fun e =>
          e.objType == tyTrigger && e.tbl_name == table_name)).map (fun e => e.name) }

/-- The three views (enum `ViewMode`); the two drilled views carry the
table name. -/
inductive ViewMode where
  | Tables : ViewMode
  | Indexes : Str → ViewMode
  | TableInfo : Str → ViewMode
deriving DecidableEq

/-- The application state (struct `App`).  `list_state` is the `selected`
payload of the `ratatui` `ListState`; `scroll_offset` is a Rust `u16`,
modelled as a `Nat` that the saturating operations keep at or below
`65535`. -/
structure App where
  tables : List TableInfo
  indexes : List IndexInfo
  table_details : Option TableDetails
  list_state : Option Nat
  scroll_offset : Nat
  db_path : Str
  total_size : Nat
  view_mode : ViewMode
deriving DecidableEq

/-- `App::new`. -/
def App.new (db_path : Str) (tables : List TableInfo) : App :=
  { tables := tables
  , indexes := []
  , table_details := none
  , list_state := if tables.isEmpty then none else some 2
  , scroll_offset := 0
  , db_path := db_path
  , total_size := (tables.map (fun t => t.size_bytes)).sum
  , view_mode := ViewMode.Tables }

/-- The local `len` computed at the top of `App::next` and
`App::previous`: the length of the current view's list, 0 in the info
view. -/
def App.viewLen (a : App) : Nat :=
  match a.view_mode with
  | ViewMode.Tables => a.tables.length
  | ViewMode.Indexes _ => a.indexes.length
  | ViewMode.TableInfo _ => 0

/-- `App::next` (src/app.rs lines 86-109); `i >= len + 2 - 1` wraps to the
first data row at list index 2. -/
def App.next (a : App) : App :=
  if a.viewLen = 0 then a
  else
    match a.list_state with
    | some i =>
      { a with list_state := some (if a.viewLen + 2 - 1 ≤ i then 2 else i + 1) }
    | none => { a with list_state := some 2 }

/-- `App::previous` (src/app.rs lines 111-134); `i <= 2` wraps to the last
data row at list index `len + 2 - 1`. -/
def App.previous (a : App) : App :=
  if a.viewLen = 0 then a
  else
    match a.list_state with
    | some i =>
      { a with list_state := some (if i ≤ 2 then a.viewLen + 2 - 1 else i - 1) }
    | none => { a with list_state := some 2 }

/-- `App::scroll_down`: `u16::saturating_add(1)`. -/
def App.scroll_down (a : App) : App :=
  { a with scroll_offset := min (a.scroll_offset + 1) 65535 }

/-- `App::scroll_up`: `u16::saturating_sub(1)` (truncated `Nat`
subtraction is exactly the saturating decrement). -/
def App.scroll_up (a : App) : App :=
  { a with scroll_offset := a.scroll_offset - 1 }

/-- `App::reset_scroll`. -/
def App.reset_scroll (a : App) : App :=
  { a with scroll_offset := 0 }

/-- The key events `run_app` dispatches on: `down` covers Down/'j', `up`
covers Up/'k', `back` covers Backspace/Left/'h'; 'q' leaves the loop
without touching the state and is subsumed, like every unhandled key, by
`other`. -/
inductive Key where
  | down : Key
  | up : Key
  | enter : Key
  | charI : Key
  | back : Key
  | other : Key
deriving DecidableEq

/-- One key-event iteration of `run_app` (src/main.rs lines 34-131).
`db?` is the outcome of opening `app.db_path` at this iteration: `none`
models a connection-open failure, making every fetch return `Err`, which
the handlers silently ignore.  The result is `none` exactly when the
iteration panics (a parse panic inside `analyze_indexes`). -/
def step (db? : Option Db) (k : Key) (a : App) : Option App :=
  match k with
  | Key.down =>
    match a.view_mode with
    | ViewMode.TableInfo _ => some a.scroll_down
    | _ => some a.next
  | Key.up =>
    match a.view_mode with
    | ViewMode.TableInfo _ => some a.scroll_up
    | _ => some a.previous
  | Key.enter =>
    match a.view_mode with
    | ViewMode.Tables =>
      match a.list_state with
      | some i =>
        if 2 ≤ i then
          match a.tables.get? (i - 2) with
          | some t =>
            match db? with
            | none => some a
            | some db =>
              match analyze_indexes db t.name with
              | none => none
              | some idxs =>
                some { a with
                  indexes := idxs,
                  view_mode := ViewMode.Indexes t.name,
                  list_state := if idxs.isEmpty then none else some 2 }
          | none => some a
        else some a
      | none => some a
    | _ => some a
  | Key.charI =>
    match a.view_mode with
    | ViewMode.Tables =>
      match a.list_state with
      | some i =>
        if 2 ≤ i then
          match a.tables.get? (i - 2) with
          | some t =>
            match db? with
            | none => some a
            | some db =>
              match analyze_table_details db t.name with
              | Except.error _ => some a
              | Except.ok details =>
                some { a with
                  table_details := some details,
                  view_mode := ViewMode.TableInfo t.name,
                  list_state := none,
                  scroll_offset := 0 }
          | none => some a
        else some a
      | none => some a
    | ViewMode.Indexes tn =>
      match db? with
      | none => some a
      | some db =>
        match analyze_table_details db tn with
        | Except.error _ => some a
        | Except.ok details =>
          some { a with
            table_details := some details,
            view_mode := ViewMode.TableInfo tn,
            list_state := none,
            scroll_offset := 0 }
    | ViewMode.TableInfo _ => some a
  | Key.back =>
    match a.view_mode with
    | ViewMode.Tables => some a
    | _ => some { a with view_mode := ViewMode.Tables, list_state := some 2 }
  | Key.other => some a

theorem length_insertDescBy {α : Type} (key : α → Nat) (x : α) (l : List α) :
    (insertDescBy key x l).length = l.length + 1 := by
  induction l with
  | nil => rfl
  | cons y ys ih =>
    by_cases h : key x < key y <;> simp [insertDescBy, h, ih]

theorem length_sortDescBy {α : Type} (key : α → Nat) (l : List α) :
    (sortDescBy key l).length = l.length := by
  induction l with
  | nil => rfl
  | cons y ys ih => simp [sortDescBy, length_insertDescBy, ih]

theorem mem_insertDescBy {α : Type} (key : α → Nat) (x a : α) (l : List α) :
    a ∈ insertDescBy key x l ↔ a = x ∨ a ∈ l := by
  induction l with
  | nil => simp [insertDescBy]
  | cons y ys ih =>
    by_cases h : key x < key y
    · simp [insertDescBy, h, ih]
      tauto
    · simp [insertDescBy, h]

theorem mem_sortDescBy {α : Type} (key : α → Nat) (a : α) (l : List α) :
    a ∈ sortDescBy key l ↔ a ∈ l := by
  induction l with
  | nil => simp [sortDescBy]
  | cons y ys ih => simp [sortDescBy, mem_insertDescBy, ih]

theorem pairwise_insertDescBy {α : Type} (key : α → Nat) (x : α) (l : List α)
    (h : l.Pairwise (fun a b => key b ≤ key a)) :
    (insertDescBy key x l).Pairwise (fun a b => key b ≤ key a) := by
  induction l with
  | nil => simp [insertDescBy]
  | cons y ys ih =>
    rcases List.pairwise_cons.mp h with ⟨h1, h2⟩
    by_cases hxy : key x < key y
    · simp only [insertDescBy, if_pos hxy]
      refine List.pairwise_cons.mpr ⟨?_, ih h2⟩
      intro b hb
      rcases (mem_insertDescBy key x b ys).mp hb with rfl | hb
      · exact Nat.le_of_lt hxy
      · exact h1 b hb
    · simp only [insertDescBy, if_neg hxy]
      refine List.pairwise_cons.mpr ⟨?_, h⟩
      intro b hb
      rcases List.mem_cons.mp hb with rfl | hb
      · exact Nat.le_of_not_lt hxy
      · exact Nat.le_trans (h1 b hb) (Nat.le_of_not_lt hxy)

theorem pairwise_sortDescBy {α : Type} (key : α → Nat) (l : List α) :
    (sortDescBy key l).Pairwise (fun a b => key b ≤ key a) := by
  induction l with
  | nil => simp [sortDescBy]
  | cons y ys ih => exact pairwise_insertDescBy key y (sortDescBy key ys) ih

theorem filter_insertDescBy {α : Type} (key : α → Nat) (x : α) (l : List α) (v : Nat) :
    (insertDescBy key x l).filter (fun a => key a == v) =
      if key x = v then x :: l.filter (fun a => key a == v)
      else l.filter (fun a => key a == v) := by
  induction l with
  | nil => by_cases hxv : key x = v <;> simp [insertDescBy, hxv]
  | cons y ys ih =>
    by_cases hxy : key x < key y
    · simp only [insertDescBy, if_pos hxy]
      by_cases hyv : key y = v
      · have hxv : ¬ key x = v := by omega
        simp [List.filter_cons, hyv, hxv, ih]
      · simp [List.filter_cons, hyv, ih]
    · simp only [insertDescBy, if_neg hxy]
      by_cases hxv : key x = v <;> simp [List.filter_cons, hxv]

theorem filter_sortDescBy {α : Type} (key : α → Nat) (l : List α) (v : Nat) :
    (sortDescBy key l).filter (fun a => key a == v) =
      l.filter (fun a => key a == v) := by
  induction l with
  | nil => rfl
  | cons y ys ih =>
    rw [sortDescBy, filter_insertDescBy]
    by_cases hyv : key y = v <;> simp [List.filter_cons, hyv, ih]

theorem length_mapOption {α β : Type} (f : α → Option β) (l : List α) (r : List β)
    (h : mapOption f l = some r) : r.length = l.length := by
  induction l generalizing r with
  | nil => simp [mapOption] at h; simp [← h]
  | cons x xs ih =>
    simp only [mapOption] at h
    cases hx : f x with
    | none => rw [hx] at h; simp at h
    | some y =>
      cases hxs : mapOption f xs with
      | none => rw [hx, hxs] at h; simp at h
      | some ys =>
        rw [hx, hxs] at h
        simp at h
        simp [← h, ih ys hxs]

theorem mem_mapOption {α β : Type} (f : α → Option β) (l : List α) (r : List β)
    (h : mapOption f l = some r) (x : α) (hx : x ∈ l) :
    ∃ y ∈ r, f x = some y := by
  induction l generalizing r with
  | nil => cases hx
  | cons z zs ih =>
    simp only [mapOption] at h
    cases hz : f z with
    | none => rw [hz] at h; simp at h
    | some y =>
      cases hzs : mapOption f zs with
      | none => rw [hz, hzs] at h; simp at h
      | some ys =>
        rw [hz, hzs] at h
        simp at h
        rcases List.mem_cons.mp hx with rfl | hx
        · exact ⟨y, by simp [← h], hz⟩
        · rcases ih ys hzs hx with ⟨w, hw, hfw⟩
          exact ⟨w, by simp [← h, hw], hfw⟩

/-- The selection successor applied by `App::next` on a non-empty list of
`n` entries: list index `n + 2 - 1 = n + 1` (the last data row) wraps to 2
(the first data row). -/
def selNext (n i : Nat) : Nat := if n + 1 ≤ i then 2 else i + 1

theorem viewLen_with_sel (a : App) (o : Option Nat) :
    App.viewLen { a with list_state := o } = a.viewLen := rfl

theorem App.next_of_some (a : App) (i : Nat) (h0 : ¬ a.viewLen = 0)
    (hs : a.list_state = some i) :
    a.next = { a with list_state := some (selNext a.viewLen i) } := by
  unfold App.next selNext
  rw [hs, if_neg h0]
  rfl

theorem App.previous_of_some (a : App) (i : Nat) (h0 : ¬ a.viewLen = 0)
    (hs : a.list_state = some i) :
    a.previous =
      { a with list_state := some (if i ≤ 2 then a.viewLen + 2 - 1 else i - 1) } := by
  unfold App.previous
  rw [hs, if_neg h0]

theorem set_sel_self (a : App) (i : Nat) (hs : a.list_state = some i) :
    ({ a with list_state := some i } : App) = a := by
  cases a
  simp_all

theorem selNext_iterate (n i k : Nat) (h0 : 0 < n) (h2 : 2 ≤ i) (hi : i ≤ n + 1) :
    (selNext n)^[k] i = 2 + ((i - 2 + k) % n) := by
  induction k with
  | zero =>
    have hlt : i - 2 < n := by omega
    simp [Nat.mod_eq_of_lt hlt]
    omega
  | succ k ih =>
    rw [Function.iterate_succ_apply', ih]
    have hr : (i - 2 + k) % n < n := Nat.mod_lt _ h0
    unfold selNext
    by_cases hc : (i - 2 + k) % n + 1 = n
    · rw [if_pos (by omega)]
      have hz : (i - 2 + (k + 1)) % n = 0 := by
        have h1 : i - 2 + (k + 1) = i - 2 + k + 1 := by omega
        rw [h1]
        conv_lhs => rw [← Nat.div_add_mod (i - 2 + k) n]
        rw [Nat.add_assoc, Nat.mul_add_mod, hc]
        exact Nat.mod_self n
      omega
    · rw [if_neg (by omega)]
      have h1 : i - 2 + (k + 1) = (i - 2 + k) + 1 := by omega
      have h2' : (i - 2 + k + 1) % n = (i - 2 + k) % n + 1 := by
        conv_lhs => rw [← Nat.div_add_mod (i - 2 + k) n]
        rw [Nat.add_assoc, Nat.mul_add_mod]
        exact Nat.mod_eq_of_lt (by omega)
      rw [h1, h2']
      omega

theorem App.next_iterate (a : App) (n i k : Nat) (hn : a.viewLen = n) (h0 : 0 < n)
    (hs : a.list_state = some i) :
    App.next^[k] a = { a with list_state := some ((selNext n)^[k] i) } := by
  induction k generalizing a i with
  | zero =>
    simpa using (set_sel_self a i hs).symm
  | succ k ih =>
    rw [Function.iterate_succ_apply]
    have hstep : a.next = { a with list_state := some (selNext n i) } := by
      rw [App.next_of_some a i (by omega) hs, hn]
    rw [hstep]
    rw [ih { a with list_state := some (selNext n i) } (selNext n i) (by rw [viewLen_with_sel, hn]) rfl]
    rw [Function.iterate_succ_apply]

/-- Strings whose characters all lie in the ASCII range, where one
character is one byte and uppercasing is one-to-one, so byte offsets and
character indices coincide. -/
def AsciiOnly (s : Str) : Prop := ∀ c ∈ s, c.toNat < 128

/-- Decidable form of `AsciiOnly`. -/
def asciiOnly (s : Str) : Bool := s.all (fun c => decide (c.toNat < 128))

theorem asciiOnly_iff (s : Str) : asciiOnly s = true ↔ AsciiOnly s := by
  simp [asciiOnly, AsciiOnly]

theorem toNat_ofNat_small (n : Nat) (h1 : n < 55296) : (Char.ofNat n).toNat = n := by
  simp [Char.ofNat, Char.toNat]
  rw [dif_pos (Or.inl h1)]
  simp [Char.ofNatAux, UInt32.toNat]

theorem utf8Size_of_ascii {c : Char} (h : c.toNat < 128) : c.utf8Size = 1 := by
  unfold Char.utf8Size
  have h127 : c.val ≤ 0x7f := by
    change c.val.toNat < 128 at h
    rw [UInt32.le_def, BitVec.le_def]
    change c.val.toBitVec.toNat ≤ 127
    have he : c.val.toNat = c.val.toBitVec.toNat := rfl
    omega
  simp [h127]

theorem asciiOnly_tail {x : Char} {xs : Str} (h : AsciiOnly (x :: xs)) : AsciiOnly xs :=
  fun c hc => h c (List.mem_cons_of_mem x hc)

theorem asciiOnly_head {x : Char} {xs : Str} (h : AsciiOnly (x :: xs)) : x.toNat < 128 :=
  h x (List.mem_cons_self x xs)

theorem asciiOnly_sub {s t : Str} (h : AsciiOnly s) (hsub : t ⊆ s) : AsciiOnly t :=
  fun c hc => h c (hsub hc)

theorem utf8Len_ascii (s : Str) (h : AsciiOnly s) : utf8Len s = s.length := by
  induction s with
  | nil => rfl
  | cons x xs ih =>
    simp only [utf8Len, List.map_cons, List.sum_cons,
      utf8Size_of_ascii (asciiOnly_head h), List.length_cons]
    have h2 := ih (asciiOnly_tail h)
    simp only [utf8Len] at h2
    omega

theorem byteDrop_ascii (s : Str) (h : AsciiOnly s) (a : Nat) :
    byteDrop s a = if a ≤ s.length then some (s.drop a) else none := by
  induction s generalizing a with
  | nil =>
    cases a with
    | zero => simp [byteDrop]
    | succ n => simp [byteDrop]
  | cons x xs ih =>
    cases a with
    | zero => simp [byteDrop]
    | succ n =>
      have hx : x.utf8Size = 1 := utf8Size_of_ascii (asciiOnly_head h)
      simp only [byteDrop, hx]
      rw [if_pos (by omega)]
      have h1 : n + 1 - 1 = n := rfl
      rw [h1, ih (asciiOnly_tail h) n]
      by_cases hn : n ≤ xs.length
      · rw [if_pos hn, if_pos (by simp; omega)]
        simp [List.drop_succ_cons]
      · rw [if_neg hn, if_neg (by simp; omega)]

theorem byteTake_ascii (s : Str) (h : AsciiOnly s) (a : Nat) :
    byteTake s a = if a ≤ s.length then some (s.take a) else none := by
  induction s generalizing a with
  | nil =>
    cases a with
    | zero => simp [byteTake]
    | succ n => simp [byteTake]
  | cons x xs ih =>
    cases a with
    | zero => simp [byteTake]
    | succ n =>
      have hx : x.utf8Size = 1 := utf8Size_of_ascii (asciiOnly_head h)
      simp only [byteTake, hx]
      rw [if_pos (by omega)]
      have h1 : n + 1 - 1 = n := rfl
      rw [h1, ih (asciiOnly_tail h) n]
      by_cases hn : n ≤ xs.length
      · rw [if_pos hn, if_pos (by simp; omega)]
        simp [List.take_succ_cons]
      · rw [if_neg hn, if_neg (by simp; omega)]
        rfl

theorem byteSlice_ascii (s : Str) (h : AsciiOnly s) (a b : Nat) :
    byteSlice s a b =
      if a ≤ b ∧ b ≤ s.length then some ((s.drop a).take (b - a)) else none := by
  unfold byteSlice
  by_cases hab : a ≤ b
  · rw [byteDrop_ascii s h a]
    rw [if_pos hab]
    by_cases hb : b ≤ s.length
    · rw [if_pos (Nat.le_trans hab hb), Option.some_bind]
      rw [byteTake_ascii (s.drop a) (asciiOnly_sub h (List.drop_subset a s)) (b - a)]
      rw [if_pos (by simp [List.length_drop]; omega), if_pos ⟨hab, hb⟩]
    · by_cases ha : a ≤ s.length
      · rw [if_pos ha, Option.some_bind]
        rw [byteTake_ascii (s.drop a) (asciiOnly_sub h (List.drop_subset a s)) (b - a)]
        rw [if_neg (by simp [List.length_drop]; omega), if_neg (by tauto)]
      · rw [if_neg ha, Option.none_bind, if_neg (by omega)]
  · rw [if_neg hab, if_neg (by tauto)]

theorem findCharPos_ascii (c : Char) (s : Str) (h : AsciiOnly s) :
    findCharPos c s = charFindIdx c s := by
  induction s with
  | nil => rfl
  | cons x xs ih =>
    have hx : x.utf8Size = 1 := utf8Size_of_ascii (asciiOnly_head h)
    simp only [findCharPos, charFindIdx, hx]
    by_cases hxc : x = c
    · simp [hxc]
    · rw [if_neg hxc, if_neg hxc, ih (asciiOnly_tail h)]
      cases charFindIdx c xs <;> simp [Nat.add_comm]

theorem findSubPos_ascii (pat : Str) (s : Str) (h : AsciiOnly s) :
    findSubPos pat s = charFindSub pat s := by
  induction s with
  | nil => rfl
  | cons x xs ih =>
    have hx : x.utf8Size = 1 := utf8Size_of_ascii (asciiOnly_head h)
    simp only [findSubPos, charFindSub, hx]
    by_cases hxc : isStartOf pat (x :: xs) = true
    · simp [hxc]
    · rw [if_neg hxc, if_neg hxc, ih (asciiOnly_tail h)]
      cases charFindSub pat xs <;> simp [Nat.add_comm]

theorem rfindCharPos_ascii (c : Char) (s : Str) (h : AsciiOnly s) :
    rfindCharPos c s = charRfindIdx c s := by
  induction s with
  | nil => rfl
  | cons x xs ih =>
    have hx : x.utf8Size = 1 := utf8Size_of_ascii (asciiOnly_head h)
    simp only [rfindCharPos, charRfindIdx, hx]
    rw [ih (asciiOnly_tail h)]
    cases charRfindIdx c xs <;> simp [Nat.add_comm]

theorem isStartOf_le (pat : Str) (s : Str) (h : isStartOf pat s = true) :
    pat.length ≤ s.length := by
  induction pat generalizing s with
  | nil => simp
  | cons p ps ih =>
    cases s with
    | nil => simp [isStartOf] at h
    | cons x xs =>
      simp only [isStartOf, Bool.and_eq_true] at h
      have := ih xs h.2
      simp only [List.length_cons]
      omega

theorem charFindSub_le (pat s : Str) (w : Nat) (h : charFindSub pat s = some w) :
    w + pat.length ≤ s.length := by
  induction s generalizing w with
  | nil =>
    simp only [charFindSub] at h
    split at h
    · simp_all [List.isEmpty_iff]
    · cases h
  | cons x xs ih =>
    simp only [charFindSub] at h
    by_cases hs : isStartOf pat (x :: xs) = true
    · rw [if_pos hs] at h
      cases h
      simpa using isStartOf_le pat _ hs
    · rw [if_neg hs] at h
      cases hfs : charFindSub pat xs with
      | none => rw [hfs] at h; cases h
      | some n =>
        rw [hfs] at h
        simp only [Option.map_some', Option.some.injEq] at h
        have := ih n hfs
        simp only [List.length_cons]
        omega

theorem charFindIdx_lt (c : Char) (s : Str) (p : Nat) (h : charFindIdx c s = some p) :
    p < s.length := by
  induction s generalizing p with
  | nil => cases h
  | cons x xs ih =>
    simp only [charFindIdx] at h
    by_cases hxc : x = c
    · rw [if_pos hxc] at h
      cases h
      simp
    · rw [if_neg hxc] at h
      cases hf : charFindIdx c xs with
      | none => rw [hf] at h; cases h
      | some n =>
        rw [hf] at h
        simp only [Option.map_some', Option.some.injEq] at h
        have := ih n hf
        simp only [List.length_cons]
        omega

theorem charFindIdx_drop (c : Char) (s : Str) (p : Nat) (h : charFindIdx c s = some p) :
    s.drop p = c :: s.drop (p + 1) := by
  induction s generalizing p with
  | nil => cases h
  | cons x xs ih =>
    simp only [charFindIdx] at h
    by_cases hxc : x = c
    · rw [if_pos hxc] at h
      cases h
      simp [hxc]
    · rw [if_neg hxc] at h
      cases hf : charFindIdx c xs with
      | none => rw [hf] at h; cases h
      | some n =>
        rw [hf] at h
        simp only [Option.map_some', Option.some.injEq] at h
        subst h
        simp only [List.drop_succ_cons]
        exact ih n hf

theorem charRfindIdx_lt (c : Char) (s : Str) (j : Nat) (h : charRfindIdx c s = some j) :
    j < s.length := by
  induction s generalizing j with
  | nil => cases h
  | cons x xs ih =>
    simp only [charRfindIdx] at h
    cases hf : charRfindIdx c xs with
    | some n =>
      rw [hf] at h
      cases h
      have := ih n hf
      simp only [List.length_cons]
      omega
    | none =>
      rw [hf] at h
      by_cases hxc : x = c
      · rw [if_pos hxc] at h
        cases h
        simp
      · rw [if_neg hxc] at h
        cases h

theorem asciiToUpper_ascii {c : Char} (h : c.toNat < 128) :
    (asciiToUpper c).toNat < 128 := by
  unfold asciiToUpper
  by_cases hc : 'a' ≤ c ∧ c ≤ 'z'
  · rw [if_pos hc, toNat_ofNat_small _ (by omega)]
    omega
  · rw [if_neg hc]
    exact h

theorem asciiOnly_map_upper {s : Str} (h : AsciiOnly s) :
    AsciiOnly (s.map asciiToUpper) := by
  intro c hc
  rcases List.mem_map.mp hc with ⟨x, hx, rfl⟩
  exact asciiToUpper_ascii (h x hx)

theorem rustCharToUpper_ascii {c : Char} (h : c.toNat < 128) :
    rustCharToUpper c = [asciiToUpper c] := by
  unfold rustCharToUpper asciiToUpper
  by_cases hc : 'a' ≤ c ∧ c ≤ 'z'
  · rw [if_pos hc, if_pos hc]
  · have hne : c ≠ 'ı' := by
      intro heq
      rw [heq] at h
      exact absurd h (by decide)
    rw [if_neg hc, if_neg hne, if_neg hc]

theorem rustToUppercase_ascii (s : Str) (h : AsciiOnly s) :
    rustToUppercase s = s.map asciiToUpper := by
  induction s with
  | nil => rfl
  | cons x xs ih =>
    simp only [rustToUppercase] at ih ⊢
    rw [List.flatMap_cons, rustCharToUpper_ascii (asciiOnly_head h),
      ih (asciiOnly_tail h), List.map_cons, List.singleton_append]

/-- Alignment condition under which the byte-offset mix-up of the parser is
harmless: when both a `(` and a case-insensitive `" WHERE "` exist, the
first `(` does not come after the `" WHERE "` token. -/
def ParenWhereOk (s : Str) : Prop :=
  ∀ p w, charFindIdx '(' s = some p →
    charFindSub strWHERE (s.map asciiToUpper) = some w → p ≤ w

/-- Decidable form of `ParenWhereOk`. -/
def parenWhereOk (s : Str) : Bool :=
  match charFindIdx '(' s, charFindSub strWHERE (s.map asciiToUpper) with
  | some p, some w => decide (p ≤ w)
  | _, _ => true

theorem parenWhereOk_iff (s : Str) : parenWhereOk s = true ↔ ParenWhereOk s := by
  unfold parenWhereOk ParenWhereOk
  cases hP : charFindIdx '(' s with
  | none => simp
  | some p =>
    cases hW : charFindSub strWHERE (s.map asciiToUpper) with
    | none => simp
    | some w => simp

theorem parse_index_sql_ascii (s : Str) (ha : AsciiOnly s) (hok : ParenWhereOk s) :
    parse_index_sql s = some (spec_parse_index s) := by
  have hu : AsciiOnly (s.map asciiToUpper) := asciiOnly_map_upper ha
  have hlu : (s.map asciiToUpper).length = s.length := List.length_map s asciiToUpper
  simp only [parse_index_sql, spec_parse_index, containsSub]
  rw [rustToUppercase_ascii s ha]
  rw [findSubPos_ascii strWHERE (s.map asciiToUpper) hu,
    findSubPos_ascii strUNIQUE (s.map asciiToUpper) hu,
    findCharPos_ascii '(' s ha, utf8Len_ascii s ha]
  cases hW : charFindSub strWHERE (s.map asciiToUpper) with
  | none =>
    cases hP : charFindIdx '(' s with
    | none => simp
    | some p =>
      dsimp only
      have hp : p < s.length := charFindIdx_lt '(' s p hP
      have hds : s.drop p = '(' :: s.drop (p + 1) := charFindIdx_drop '(' s p hP
      rw [byteSlice_ascii s ha p s.length,
        if_pos ⟨Nat.le_of_lt hp, Nat.le_refl s.length⟩]
      have hseg : (s.drop p).take (s.length - p) = '(' :: s.drop (p + 1) := by
        rw [← List.length_drop, List.take_length, hds]
      have hsegA : AsciiOnly ('(' :: s.drop (p + 1)) :=
        hds ▸ asciiOnly_sub ha (List.drop_subset p s)
      rw [hseg]
      dsimp only
      rw [rfindCharPos_ascii ')' _ hsegA]
      have hreg : (s.drop (p + 1)).take (s.length - (p + 1)) = s.drop (p + 1) := by
        rw [← List.length_drop, List.take_length]
      rw [hreg]
      simp only [charRfindIdx]
      cases hR : charRfindIdx ')' (s.drop (p + 1)) with
      | none => simp
      | some j =>
        dsimp only
        have hjlt : j < (s.drop (p + 1)).length := charRfindIdx_lt ')' _ j hR
        rw [List.length_drop] at hjlt
        rw [byteSlice_ascii s ha (p + 1) (p + (j + 1)),
          if_pos ⟨by omega, by omega⟩]
        have harith : p + (j + 1) - (p + 1) = j := by omega
        rw [harith]
  | some w =>
    dsimp only
    have hw7 : w + 7 ≤ s.length := by
      have := charFindSub_le strWHERE (s.map asciiToUpper) w hW
      rw [hlu] at this
      have h7 : strWHERE.length = 7 := rfl
      omega
    rw [Nat.min_eq_left (by omega : w ≤ s.length)]
    rw [byteDrop_ascii s ha (w + 7), if_pos (by omega : w + 7 ≤ s.length)]
    cases hP : charFindIdx '(' s with
    | none => simp
    | some p =>
      dsimp only
      have hp : p < s.length := charFindIdx_lt '(' s p hP
      have hds : s.drop p = '(' :: s.drop (p + 1) := charFindIdx_drop '(' s p hP
      have hpw : p ≤ w := hok p w hP hW
      rw [byteSlice_ascii s ha p w, if_pos ⟨hpw, by omega⟩]
      cases hwp : w - p with
      | zero =>
        have hz : w - (p + 1) = 0 := by omega
        rw [hz]
        simp [charRfindIdx, rfindCharPos]
      | succ m =>
        have hm : w - (p + 1) = m := by omega
        rw [hm, hds, List.take_succ_cons]
        have hsegA : AsciiOnly ('(' :: (s.drop (p + 1)).take m) := by
          intro c hc
          rcases List.mem_cons.mp hc with rfl | hc
          · decide
          · exact ha c (List.drop_subset (p + 1) s (List.take_subset m (List.drop (p + 1) s) hc))
        dsimp only
        rw [rfindCharPos_ascii ')' _ hsegA]
        simp only [charRfindIdx]
        cases hR : charRfindIdx ')' ((s.drop (p + 1)).take m) with
        | none => simp
        | some j =>
          dsimp only
          have hjlt : j < ((s.drop (p + 1)).take m).length := charRfindIdx_lt ')' _ j hR
          rw [List.length_take, List.length_drop] at hjlt
          rw [byteSlice_ascii s ha (p + 1) (p + (j + 1)),
            if_pos ⟨by omega, by omega⟩]
          have harith : p + (j + 1) - (p + 1) = j := by omega
          rw [harith, List.take_take, Nat.min_eq_left (by omega)]

/-- Name of the first example table. -/
def nT : Str := "t".toList

/-- Name of the second example table. -/
def nT2 : Str := "t2".toList

/-- Name of the user index on `t`. -/
def nI1 : Str := "i1".toList

/-- Name of the statement-less index on `t2`. -/
def nI2 : Str := "i2".toList

/-- Name of the engine auto-index on `t`. -/
def nAuto1 : Str := "sqlite_autoindex_t_1".toList

/-- Example column name. -/
def nColA : Str := "a".toList

/-- Example column type. -/
def tyINTEGER : Str := "INTEGER".toList

/-- DDL of table `t`. -/
def sqlCreateT : Str := "CREATE TABLE t(a)".toList

/-- DDL of table `t2`. -/
def sqlCreateT2 : Str := "CREATE TABLE t2(x)".toList

/-- Statement text of the example user index `i1` (the specification's
round-trip example). -/
def sqlI1 : Str := "CREATE UNIQUE INDEX i1 ON t (a, b) WHERE a IS NOT NULL".toList

/-- Expected column list of `sqlI1`. -/
def strAB : Str := "a, b".toList

/-- Expected predicate text of `sqlI1`. -/
def strNotNullPred : Str := "a IS NOT NULL".toList

/-- A table name containing a double quote. -/
def nQuoteName : Str := "a\x22b".toList

/-- A database path for the example application states. -/
def nDbPath : Str := "test.db".toList

/-- Example column row of table `t`. -/
def exColA : ColumnInfo :=
  { name := nColA, col_type := tyINTEGER, not_null := false
  , default_value := none, is_pk := true }

/-- An example snapshot: table `t` (4096 page bytes, 3 rows) carries the
user index `i1` (1024 bytes) and the engine auto-index
`sqlite_autoindex_t_1` (512 bytes); table `t2` (100 bytes, 1 row) carries
only `i2`, an index with no statement text (50 bytes). -/
def exDb : Db :=
  { master :=
      [ { objType := tyTable, name := nT, tbl_name := nT, sql := some sqlCreateT }
      , { objType := tyIndex, name := nI1, tbl_name := nT, sql := some sqlI1 }
      , { objType := tyIndex, name := nAuto1, tbl_name := nT, sql := none }
      , { objType := tyTable, name := nT2, tbl_name := nT2, sql := some sqlCreateT2 }
      , { objType := tyIndex, name := nI2, tbl_name := nT2, sql := none } ]
  , dbstat := [(nT, 4096), (nI1, 1024), (nAuto1, 512), (nT2, 100), (nI2, 50)]
  , rowCountQuery := [(nT, 3), (nT2, 1)]
  , tableInfoRows := [(nT, [exColA])]
  , foreignKeyRows := [] }

/-- The summary of the single index of `t`. -/
def exIdxT : IndexInfo :=
  { name := nI1, size_bytes := 1024, is_unique := true, columns := strAB
  , partial_clause := some strNotNullPred }

/-- The summary of the single index of `t2`. -/
def exIdxT2 : IndexInfo :=
  { name := nI2, size_bytes := 50, is_unique := false, columns := strAuto
  , partial_clause := none }

/-- The index list of `t`. -/
def exListT : List IndexInfo := [exIdxT]

/-- The index list of `t2`. -/
def exListT2 : List IndexInfo := [exIdxT2]

/-- The application state after startup on the example database. -/
def exApp : App := App.new nDbPath (analyze_database exDb)

/-- An application state over an empty table list (`viewLen` is 0). -/
def exApp0 : App := App.new nDbPath []

/-- The detail fetched for `t`. -/
def exDetailT : TableDetails :=
  { ddl := sqlCreateT, columns := [exColA], foreign_keys := [], triggers := [] }

/-- The application state after pressing 'i' on the first row of
`exApp`. -/
def exAppDetail : App :=
  { exApp with
    table_details := some exDetailT,
    view_mode := ViewMode.TableInfo nT,
    list_state := none,
    scroll_offset := 0 }

/-- An application state whose selected table name contains a double
quote. -/
def exAppQuote : App :=
  App.new nDbPath
    [{ name := nQuoteName, size_bytes := 0, row_count := 0, index_count := 0
     , index_size_bytes := 0 }]

/-- Apply a sequence of scroll events in the detail view (`true` is
scroll-down, `false` is scroll-up). -/
def applyScrolls (ops : List Bool) (a : App) : App :=
  ops.foldl (fun st op => if op then st.scroll_down else st.scroll_up) a

/-- The index size the claim describes: page bytes summed over exactly the
catalog indexes of the table that are not engine-internal — the same set
whose cardinality is `index_count`.  (Written from the specification, for
comparison with what the code computes.) -/
def spec_index_size_excl (db : Db) (table_name : Str) : Nat :=
  ((db.dbstat.filter (fun p =>
    (db.master.filter (fun e =>
      e.objType == tyIndex && e.tbl_name == table_name && !likeSqlitePat e.name)).any
        (fun e => e.name == p.1))).map (fun p => p.2)).sum

/-- The index size the code actually reports: page bytes summed over all
catalog indexes of the table, engine-internal auto-indexes included.
(Written from the specification of the amended claim.) -/
def spec_index_size_all (db : Db) (table_name : Str) : Nat :=
  ((db.dbstat.filter (fun p =>
    (db.master.filter (fun e =>
      e.objType == tyIndex && e.tbl_name == table_name)).any
        (fun e => e.name == p.1))).map (fun p => p.2)).sum

example : analyze_database exDb =
    [ { name := nT, size_bytes := 4096, row_count := 3, index_count := 1
      , index_size_bytes := 1536 }
    , { name := nT2, size_bytes := 100, row_count := 1, index_count := 1
      , index_size_bytes := 50 } ] := by decide

example : analyze_indexes exDb nT = some exListT := by decide

example : analyze_indexes exDb nT2 = some exListT2 := by decide

example : analyze_table_details exDb nT = Except.ok exDetailT := rfl

example : analyze_table_details exDb nQuoteName = Except.error () := rfl

example : step (some exDb) Key.charI exApp = some exAppDetail := by decide

/-- C1, counterexample: on `exDb` the claim as stated is false — the
reported `index_size_bytes` of table `t` is 1536 (it includes the 512
bytes of `sqlite_autoindex_t_1`), while the page-byte sum over exactly the
indexes counted by `index_count` is 1024. -/
theorem claim_C1_counterexample :
    ¬ (∀ t ∈ analyze_database exDb,
        t.index_size_bytes = spec_index_size_excl exDb t.name) := by
  decide

/-- C1 (amended): for every table in the result of `analyze_database`, the
reported total index size is the sum of page bytes over all catalog
indexes attached to the table, engine-internal auto-indexes included — a
superset of the set whose cardinality is reported as `index_count`, which
does exclude the engine-internal auto-indexes. -/
theorem claim_C1_index_size_all_indexes :
    ∀ db : Db, ∀ t ∈ analyze_database db,
      t.index_size_bytes = spec_index_size_all db t.name ∧
      t.index_count = (db.master.filter (fun e =>
        e.objType == tyIndex && e.tbl_name == t.name && !likeSqlitePat e.name)).length := by
  intro db t ht
  rw [analyze_database, mem_sortDescBy] at ht
  rcases List.mem_map.mp ht with ⟨n, hn, rfl⟩
  exact ⟨rfl, rfl⟩

/-- Witness for C1 at the concrete snapshot `exDb`. -/
theorem claim_C1_witness :
    (mkTableInfo exDb nT ∈ analyze_database exDb) ∧
    (mkTableInfo exDb nT).index_size_bytes =
      spec_index_size_all exDb (mkTableInfo exDb nT).name :=
  ⟨by decide, (claim_C1_index_size_all_indexes exDb (mkTableInfo exDb nT) (by decide)).1⟩

/-- C2, counterexample: on the statement text
`CREATE INDEX ı ON t(a) WHERE x` (where `ı` is the two-byte U+0131) the
parser returns the empty column list, while the claim's description of the
parse — the text between the first `(` and the last `)` before the
`" WHERE "` clause — yields `a`: the byte offset of `" WHERE "` is taken in
the uppercased text, where `ı` has shrunk to the one-byte `I`. -/
theorem claim_C2_counterexample :
    parse_index_sql sqlDotlessI = some (false, [], some (rustTrim ([' ', 'x']))) ∧
    spec_parse_index sqlDotlessI = (false, nColA, some (rustTrim ([' ', 'x']))) ∧
    nColA ≠ ([] : Str) := by
  decide

/-- C2 (amended): for every statement text whose characters are all ASCII
and in which no case-insensitive `" WHERE "` occurrence precedes the first
`(`, the parser returns exactly the triple the specification describes
(uniqueness = case-insensitive `UNIQUE` anywhere; column list = text
between the first `(` and the last `)` after it and before the `" WHERE "`
token when present, else before the end, empty when there is no such pair;
partial clause = trimmed text after `" WHERE "`); in particular the
round-trip example `CREATE UNIQUE INDEX i1 ON t (a, b) WHERE a IS NOT
NULL` parses to uniqueness, `a, b`, and `a IS NOT NULL`. -/
theorem claim_C2_parser_triple :
    (∀ s : Str, AsciiOnly s → ParenWhereOk s →
      parse_index_sql s = some (spec_parse_index s))
    ∧ parse_index_sql sqlI1 = some (true, strAB, some strNotNullPred) :=
  ⟨fun s ha hok => parse_index_sql_ascii s ha hok, by decide⟩

/-- Witness for C2 at the round-trip example text. -/
theorem claim_C2_witness :
    asciiOnly sqlI1 = true ∧ parenWhereOk sqlI1 = true ∧
    parse_index_sql sqlI1 = some (spec_parse_index sqlI1) :=
  ⟨by decide, by decide,
    claim_C2_parser_triple.1 sqlI1 ((asciiOnly_iff sqlI1).mp (by decide))
      ((parenWhereOk_iff sqlI1).mp (by decide))⟩

/-- C3: the index-definition parsing is not total — on the statement text
`CREATE INDEX "a WHERE " ON t(c)` (a legal index named `a WHERE `) the
case-insensitive `" WHERE "` occurs at byte 15, before the first `(` at
byte 28, and the Rust slice `sql_str[start..end]` panics with start 28 >
end 15; the model returns `none` exactly there. -/
theorem claim_C3_parse_panics :
    parse_index_sql sqlWhereInName = none := by decide

/-- C8: on an opened connection, `analyze_table_details` fails for the
table name `a"b`: the interpolated text `PRAGMA table_info("a"b")` is a
syntax error, `prepare` fails and the `?` operator escalates it, even
though the claim says per-field lookups are never escalated. -/
theorem claim_C8_quote_name_errors :
    analyze_table_details exDb nQuoteName = Except.error () := rfl

/-- C9: every index row whose statement text is absent is represented in
the result of `analyze_indexes` with uniqueness `false`, the sentinel
column list `(auto)` and no partial clause (and the usual page-sum
size). -/
theorem claim_C9_absent_sql_sentinel :
    ∀ (db : Db) (tn : Str) (l : List IndexInfo), analyze_indexes db tn = some l →
    ∀ n : Str, (n, (none : Option Str)) ∈ index_rows db tn →
    ({ name := n, size_bytes := dbstatSumFor db n, is_unique := false
     , columns := strAuto, partial_clause := none } : IndexInfo) ∈ l := by
  intro db tn l hl n hmem
  rw [analyze_indexes] at hl
  cases hpre : analyze_indexes_pre db tn with
  | none => rw [hpre] at hl; cases hl
  | some pre =>
    rw [hpre] at hl
    simp only [Option.map_some', Option.some.injEq] at hl
    subst hl
    rw [analyze_indexes_pre] at hpre
    rcases mem_mapOption (mkIndexInfo db) (index_rows db tn) pre hpre (n, none) hmem
      with ⟨y, hy, hfy⟩
    have hrec : mkIndexInfo db (n, none) =
        some { name := n, size_bytes := dbstatSumFor db n, is_unique := false
             , columns := strAuto, partial_clause := none } := rfl
    rw [hrec] at hfy
    simp only [Option.some.injEq] at hfy
    rw [mem_sortDescBy]
    rw [hfy]
    exact hy

/-- Witness for C9 at the statement-less index `i2` of `exDb`. -/
theorem claim_C9_witness :
    analyze_indexes exDb nT2 = some exListT2 ∧
    (nI2, (none : Option Str)) ∈ index_rows exDb nT2 ∧
    ({ name := nI2, size_bytes := dbstatSumFor exDb nI2, is_unique := false
     , columns := strAuto, partial_clause := none } : IndexInfo) ∈ exListT2 :=
  ⟨by decide, by decide,
    claim_C9_absent_sql_sentinel exDb nT2 exListT2 (by decide) nI2 (by decide)⟩

/-- C4: when the underlying fetch fails — the database cannot be opened
(`db?` is `none`, so every fetch returns `Err`), or the detail fetch
itself returns `Err` on an open connection — the fetch-triggering
transitions (Enter: drill into indexes; 'i': show detail) leave the whole
application state (view, selection, scroll offset, loaded results)
unchanged. -/
theorem claim_C4_failed_fetch_keeps_state :
    (∀ a : App, step none Key.enter a = some a)
    ∧ (∀ a : App, step none Key.charI a = some a)
    ∧ (∀ (db : Db) (a : App) (tn : Str), a.view_mode = ViewMode.Indexes tn →
        analyze_table_details db tn = Except.error () →
        step (some db) Key.charI a = some a)
    ∧ (∀ (db : Db) (a : App) (i : Nat) (t : TableInfo),
        a.view_mode = ViewMode.Tables → a.list_state = some i → 2 ≤ i →
        a.tables.get? (i - 2) = some t →
        analyze_table_details db t.name = Except.error () →
        step (some db) Key.charI a = some a) := by
  refine ⟨?_, ?_, ?_, ?_⟩
  · intro a
    unfold step
    cases hv : a.view_mode with
    | Tables =>
      dsimp only
      cases hs : a.list_state with
      | none => rfl
      | some i =>
        dsimp only
        by_cases h2 : 2 ≤ i
        · rw [if_pos h2]
          cases hg : a.tables.get? (i - 2) with
          | none => rfl
          | some t => rfl
        · rw [if_neg h2]
    | Indexes tn => rfl
    | TableInfo tn => rfl
  · intro a
    unfold step
    cases hv : a.view_mode with
    | Tables =>
      dsimp only
      cases hs : a.list_state with
      | none => rfl
      | some i =>
        dsimp only
        by_cases h2 : 2 ≤ i
        · rw [if_pos h2]
          cases hg : a.tables.get? (i - 2) with
          | none => rfl
          | some t => rfl
        · rw [if_neg h2]
    | Indexes tn => rfl
    | TableInfo tn => rfl
  · intro db a tn hv he
    unfold step
    rw [hv]
    dsimp only
    rw [he]
  · intro db a i t hv hs h2 hg he
    unfold step
    rw [hv]
    dsimp only
    rw [hs]
    dsimp only
    rw [if_pos h2, hg]
    dsimp only
    rw [he]

/-- The table summary whose name contains a double quote. -/
def exTblQuote : TableInfo :=
  { name := nQuoteName, size_bytes := 0, row_count := 0, index_count := 0
  , index_size_bytes := 0 }

/-- Witness for C4: failed fetches at concrete states. -/
theorem claim_C4_witness :
    step none Key.enter exApp = some exApp ∧
    step none Key.charI exApp = some exApp ∧
    step (some exDb) Key.charI exAppQuote = some exAppQuote :=
  ⟨claim_C4_failed_fetch_keeps_state.1 exApp,
   claim_C4_failed_fetch_keeps_state.2.1 exApp,
   claim_C4_failed_fetch_keeps_state.2.2.2 exDb exAppQuote 2 exTblQuote rfl rfl
     (by decide) (by decide) rfl⟩

/-- C5: both result sets come out sorted by size in bytes descending, and
the sort is stable: for every size value, the subsequence of entries of
that size is exactly the subsequence of the pre-sort enumeration (for
tables the name-ordered catalog scan `analyze_database_pre`, for indexes
the catalog-order row list). -/
theorem claim_C5_sorted_stable :
    (∀ db : Db,
      (analyze_database db).Pairwise (fun a b => b.size_bytes ≤ a.size_bytes) ∧
      ∀ v : Nat, (analyze_database db).filter (fun t => t.size_bytes == v) =
        (analyze_database_pre db).filter (fun t => t.size_bytes == v))
    ∧ (∀ (db : Db) (tn : Str) (pre : List IndexInfo),
        analyze_indexes_pre db tn = some pre →
        analyze_indexes db tn = some (sortDescBy (fun i => i.size_bytes) pre) ∧
        (sortDescBy (fun i => i.size_bytes) pre).Pairwise
          (fun a b => b.size_bytes ≤ a.size_bytes) ∧
        ∀ v : Nat, (sortDescBy (fun i => i.size_bytes) pre).filter
            (fun i => i.size_bytes == v) =
          pre.filter (fun i => i.size_bytes == v)) := by
  constructor
  · intro db
    exact ⟨pairwise_sortDescBy (fun t => t.size_bytes) (analyze_database_pre db),
      fun v => filter_sortDescBy (fun t => t.size_bytes) (analyze_database_pre db) v⟩
  · intro db tn pre hpre
    refine ⟨?_, pairwise_sortDescBy (fun i => i.size_bytes) pre,
      fun v => filter_sortDescBy (fun i => i.size_bytes) pre v⟩
    rw [analyze_indexes, hpre]
    rfl

/-- Witness for C5 at the example snapshot. -/
theorem claim_C5_witness :
    analyze_indexes_pre exDb nT = some exListT ∧
    (analyze_database exDb).Pairwise (fun a b => b.size_bytes ≤ a.size_bytes) ∧
    analyze_indexes exDb nT = some (sortDescBy (fun i => i.size_bytes) exListT) ∧
    (sortDescBy (fun i => i.size_bytes) exListT).filter
        (fun i => i.size_bytes == 1024) =
      exListT.filter (fun i => i.size_bytes == 1024) :=
  ⟨by decide, (claim_C5_sorted_stable.1 exDb).1,
   (claim_C5_sorted_stable.2 exDb nT exListT (by decide)).1,
   (claim_C5_sorted_stable.2 exDb nT exListT (by decide)).2.2 1024⟩

/-- C6: for every table of a snapshot, the reported `index_count` equals
the length of the index list `analyze_indexes` returns for that table —
both count the catalog rows of kind `index` attached to the table whose
names do not match the engine-internal pattern. -/
theorem claim_C6_count_matches_list :
    ∀ db : Db, ∀ t ∈ analyze_database db, ∀ l : List IndexInfo,
      analyze_indexes db t.name = some l → t.index_count = l.length := by
  intro db t ht l hl
  rw [analyze_database, mem_sortDescBy] at ht
  rcases List.mem_map.mp ht with ⟨n, hn, rfl⟩
  rw [analyze_indexes] at hl
  cases hpre : analyze_indexes_pre db (mkTableInfo db n).name with
  | none => rw [hpre] at hl; cases hl
  | some pre =>
    rw [hpre] at hl
    simp only [Option.map_some', Option.some.injEq] at hl
    subst hl
    rw [length_sortDescBy]
    rw [analyze_indexes_pre] at hpre
    have h1 := length_mapOption (mkIndexInfo db) (index_rows db (mkTableInfo db n).name)
      pre hpre
    rw [h1, index_rows, List.length_map]
    rfl

/-- Witness for C6 at the table `t` of the example snapshot. -/
theorem claim_C6_witness :
    mkTableInfo exDb nT ∈ analyze_database exDb ∧
    analyze_indexes exDb (mkTableInfo exDb nT).name = some exListT ∧
    (mkTableInfo exDb nT).index_count = exListT.length :=
  ⟨by decide, by decide,
   claim_C6_count_matches_list exDb (mkTableInfo exDb nT) (by decide) exListT
     (by decide)⟩

/-- C7: in the list views, with `n > 0` data rows, `next` applied `n`
times from any data row (list index `2 ≤ i ≤ n + 1`) returns the whole
state to itself; `previous` from the first data row (list index 2) lands
on the last data row (list index `n + 1`); and on an empty list both
movements are no-ops. -/
theorem claim_C7_wraparound :
    (∀ (a : App) (n i : Nat), a.viewLen = n → 0 < n → a.list_state = some i →
      2 ≤ i → i ≤ n + 1 → App.next^[n] a = a)
    ∧ (∀ (a : App) (n : Nat), a.viewLen = n → 0 < n → a.list_state = some 2 →
      (App.previous a).list_state = some (n + 1))
    ∧ (∀ a : App, a.viewLen = 0 → a.next = a ∧ a.previous = a) := by
  refine ⟨?_, ?_, ?_⟩
  · intro a n i hn h0 hs h2 hi
    rw [App.next_iterate a n i n hn h0 hs, selNext_iterate n i n h0 h2 hi]
    have hmod : (i - 2 + n) % n = i - 2 := by
      rw [Nat.add_mod_right]
      exact Nat.mod_eq_of_lt (by omega)
    rw [hmod]
    have h22 : 2 + (i - 2) = i := by omega
    rw [h22]
    exact set_sel_self a i hs
  · intro a n hn h0 hs
    rw [App.previous_of_some a 2 (by omega) hs]
    show some (if 2 ≤ 2 then a.viewLen + 2 - 1 else 2 - 1) = some (n + 1)
    rw [if_pos (Nat.le_refl 2), hn]
    exact congrArg some (by omega)
  · intro a h0
    constructor
    · unfold App.next
      rw [if_pos h0]
    · unfold App.previous
      rw [if_pos h0]

/-- Witness for C7 at the two-table example state and an empty state. -/
theorem claim_C7_witness :
    App.next^[2] exApp = exApp ∧ (App.previous exApp).list_state = some 3 ∧
    (App.next exApp0 = exApp0 ∧ App.previous exApp0 = exApp0) :=
  ⟨claim_C7_wraparound.1 exApp 2 2 (by decide) (by decide) (by decide) (by decide)
     (by decide),
   claim_C7_wraparound.2.1 exApp 2 (by decide) (by decide) (by decide),
   claim_C7_wraparound.2.2 exApp0 (by decide)⟩

/-- C10: every fresh entry into the detail view (an 'i' step from a
non-detail view that lands in the detail view) resets the scroll offset to
zero; scroll-up at offset zero saturates at zero; and under any sequence
of scroll events the offset stays within the `u16` range (as a `Nat` it is
non-negative by construction, the faithful image of the unsigned `u16`
with saturating arithmetic). -/
theorem claim_C10_scroll :
    (∀ (db : Db) (a a' : App), step (some db) Key.charI a = some a' →
      (∀ s, a.view_mode ≠ ViewMode.TableInfo s) →
      (∃ s, a'.view_mode = ViewMode.TableInfo s) → a'.scroll_offset = 0)
    ∧ (∀ a : App, a.scroll_offset = 0 → (App.scroll_up a).scroll_offset = 0)
    ∧ (∀ (ops : List Bool) (a : App), a.scroll_offset ≤ 65535 →
        (applyScrolls ops a).scroll_offset ≤ 65535) := by
  refine ⟨?_, ?_, ?_⟩
  · intro db a a' hstep hnot hdet
    unfold step at hstep
    cases hv : a.view_mode with
    | TableInfo s => exact absurd hv (hnot s)
    | Indexes tn =>
      rw [hv] at hstep
      dsimp only at hstep
      cases hd : analyze_table_details db tn with
      | error e =>
        rw [hd] at hstep
        dsimp only at hstep
        injection hstep with h
        subst h
        rcases hdet with ⟨s, hvs⟩
        rw [hv] at hvs
        exact ViewMode.noConfusion hvs
      | ok d =>
        rw [hd] at hstep
        dsimp only at hstep
        injection hstep with h
        subst h
        rfl
    | Tables =>
      rw [hv] at hstep
      dsimp only at hstep
      cases hs : a.list_state with
      | none =>
        rw [hs] at hstep
        dsimp only at hstep
        injection hstep with h
        subst h
        rcases hdet with ⟨s, hvs⟩
        rw [hv] at hvs
        exact ViewMode.noConfusion hvs
      | some i =>
        rw [hs] at hstep
        dsimp only at hstep
        by_cases h2 : 2 ≤ i
        · rw [if_pos h2] at hstep
          cases hg : a.tables.get? (i - 2) with
          | none =>
            rw [hg] at hstep
            dsimp only at hstep
            injection hstep with h
            subst h
            rcases hdet with ⟨s, hvs⟩
            rw [hv] at hvs
            exact ViewMode.noConfusion hvs
          | some t =>
            rw [hg] at hstep
            dsimp only at hstep
            cases hd : analyze_table_details db t.name with
            | error e =>
              rw [hd] at hstep
              dsimp only at hstep
              injection hstep with h
              subst h
              rcases hdet with ⟨s, hvs⟩
              rw [hv] at hvs
              exact ViewMode.noConfusion hvs
            | ok d =>
              rw [hd] at hstep
              dsimp only at hstep
              injection hstep with h
              subst h
              rfl
        · rw [if_neg h2] at hstep
          injection hstep with h
          subst h
          rcases hdet with ⟨s, hvs⟩
          rw [hv] at hvs
          exact ViewMode.noConfusion hvs
  · intro a h
    show a.scroll_offset - 1 = 0
    omega
  · intro ops
    induction ops with
    | nil => intro a ha; exact ha
    | cons op ops ih =>
      intro a ha
      show (applyScrolls ops (if op then a.scroll_down else a.scroll_up)).scroll_offset
        ≤ 65535
      apply ih
      cases op with
      | true => exact Nat.min_le_right (a.scroll_offset + 1) 65535
      | false =>
        show a.scroll_offset - 1 ≤ 65535
        omega

/-- An example scroll-event sequence. -/
def scrollOpsEx : List Bool := [true, true, false, false, false]

/-- Witness for C10 at the concrete entry into the detail view of `t`. -/
theorem claim_C10_witness :
    step (some exDb) Key.charI exApp = some exAppDetail ∧
    exAppDetail.scroll_offset = 0 ∧
    (App.scroll_up exAppDetail).scroll_offset = 0 ∧
    (applyScrolls scrollOpsEx exAppDetail).scroll_offset ≤ 65535 :=
  ⟨by decide,
   claim_C10_scroll.1 exDb exApp exAppDetail (by decide)
     (fun s h => ViewMode.noConfusion h) ⟨nT, by decide⟩,
   claim_C10_scroll.2.1 exAppDetail (by decide),
   claim_C10_scroll.2.2 scrollOpsEx exAppDetail (by decide)⟩
